import Mathlib

/-!
Verification of the `netnode` key-value abstraction (`src/netnode/netnode.py`).

The `Netnode` class layers a uniform map interface (integer-or-string keys,
codec-encoded values of unbounded size) over the IDA netnode substrate.  The
substrate (an external collaborator, `idaapi`) is modelled from the spec's
Record Store contract (spec section 6): several independent key-value spaces
with lookup / set / delete / enumeration and a fresh-slot allocator for the
tagged blob space.  Each space is represented as an association list with
unique keys (set = delete-then-prepend), which realises the contract exactly:
lookup returns an absence sentinel (`Option.none`) when unset, enumeration is
the finite list of live keys in the space's native order.

The Python methods `_intdel`, `_intset`, `_intget`, `_strdel`, `_strset`,
`_strget`, `__getitem__`, `__setitem__`, `__delitem__`, `get`,
`__contains__`, `iterkeys`, `keys` and `kill` are translated one-to-one
below.  Values are byte strings (`List Nat`); the pluggable JSON / zlib
codecs are abstract function parameters `enc`, `dec`, `comp`, `decomp`.
Python exceptions are an explicit error type: `KeyError` becomes
`NErr.keyNotFound`, `NetnodeCorruptError` becomes `NErr.corruptStore`;
`__delitem__`'s raise-on-nothing-deleted is the `Bool` component returned by
the delete operations (mirroring the `did_del` flag in the source).
-/

/-- Byte strings stored in the substrate. -/
abbrev Bytes := List Nat

/-- Maximum direct-slot payload size; `BLOB_SIZE = 1024` in the source. -/
def BLOB_SIZE : Nat := 1024

/-- Errors surfaced by the netnode operations: Python `KeyError` and
`NetnodeCorruptError`. -/
inductive NErr where
  | keyNotFound
  | corruptStore
  deriving DecidableEq, Repr

/-- Logical keys: the source dispatches on `int` versus `str` keys. -/
inductive NKey where
  | i (n : Nat)
  | s (st : String)
  deriving DecidableEq, Repr

/-- Lookup in an association-list space: the substrate's read primitive
(`supval` / `getblob` / `hashval`), returning `none` as the absence
sentinel. -/
def alookup {κ α : Type} [DecidableEq κ] (k : κ) : List (κ × α) → Option α
  | [] => none
  | p :: ps => if p.1 = k then some p.2 else alookup k ps

/-- Deletion in an association-list space: the substrate's delete primitive
(`supdel` / `delblob` / `hashdel`). -/
def adel {κ α : Type} [DecidableEq κ] (k : κ) : List (κ × α) → List (κ × α)
  | [] => []
  | p :: ps => if p.1 = k then adel k ps else p :: adel k ps

/-- Overwrite in an association-list space: the substrate's write primitive
(`supset` / `setblob` / `hashset`); keeps keys unique. -/
def aset {κ α : Type} [DecidableEq κ] (k : κ) (v : α) (m : List (κ × α)) :
    List (κ × α) :=
  (k, v) :: adel k m

/-- Largest key present in an integer-keyed space (0 when empty). -/
def maxKey (m : List (Nat × Bytes)) : Nat :=
  m.foldr (fun p acc => max p.1 acc) 0

/-- Modelled from the spec: the Record Store's "next free integer slot"
primitive for a tagged blob space (`suplast` in the source, which the
source's comment documents as fetching the next open slot; spec section 6
and invariant I5 require a slot not currently in use). -/
def freshSlot (m : List (Nat × Bytes)) : Nat :=
  maxKey m + 1

/-- State of one netnode namespace: the five substrate spaces the source
touches, plus the hash space of tag STR_KEYS_TAG that `iterkeys` reads
(never written by any operation).
  - `sup`:   default supval space — integer keys, small values;
  - `supM`:  blob space tagged INT_KEYS_TAG — integer keys, large values;
  - `blobN`: blob space tagged STR_KEYS_TAG — large values of string keys;
  - `hashH`: default hash space — string keys, small values;
  - `hashO`: hash space tagged STR_TO_INT_MAP_TAG — forwarding records
    string key to blob integer key;
  - `hashN`: hash space tagged STR_KEYS_TAG — toured by `iterkeys`. -/
structure NNState where
  sup : List (Nat × Bytes)
  supM : List (Nat × Bytes)
  blobN : List (Nat × Bytes)
  hashH : List (String × Bytes)
  hashO : List (String × Nat)
  hashN : List (String × Bytes)
  deriving DecidableEq, Repr

/-- The empty namespace (fresh netnode). -/
def NNState.empty : NNState := ⟨[], [], [], [], [], []⟩

/-- Python truthiness of a substrate read result: the source tests
`if self._n.hashval(key):`, which is false for the absence sentinel and for
an empty byte string. -/
def truthy (o : Option Bytes) : Bool :=
  match o with
  | none => false
  | some b => !b.isEmpty

/-- Translation of `Netnode._intdel`: delete the blob placement (tag
INT_KEYS_TAG) if present, then the direct supval placement if present;
the `Bool` is the source's `did_del` flag (false means `KeyError`). -/
def intdel (k : Nat) (s : NNState) : NNState × Bool :=
  let s1 := if (alookup k s.supM).isSome then { s with supM := adel k s.supM } else s
  let d1 := (alookup k s.supM).isSome
  let s2 := if (alookup k s1.sup).isSome then { s1 with sup := adel k s1.sup } else s1
  let d2 := d1 || (alookup k s1.sup).isSome
  (s2, d2)

/-- Translation of `Netnode._intset`: delete any existing placement
(ignoring `KeyError`), then write the blob placement when the value exceeds
`BLOB_SIZE`, the direct placement otherwise. -/
def intset (k : Nat) (v : Bytes) (s : NNState) : NNState :=
  let s1 := (intdel k s).1
  if BLOB_SIZE < v.length then { s1 with supM := aset k v s1.supM }
  else { s1 with sup := aset k v s1.sup }

/-- Translation of `Netnode._intget`: consult the blob placement first,
then the direct placement; `KeyError` when both are absent. -/
def intget (k : Nat) (s : NNState) : Except NErr Bytes :=
  match alookup k s.supM with
  | some v => .ok v
  | none =>
    match alookup k s.sup with
    | some v => .ok v
    | none => .error .keyNotFound

/-- Translation of `Netnode._strdel`.  When a forwarding record exists the
source deletes the target blob and then calls `self._n.hashdel(key)` with no
tag argument, which deletes from the DEFAULT hash space — the forwarding
record in the STR_TO_INT_MAP_TAG space is left in place.  Then the default
hash slot is deleted if its value is truthy.  The `Bool` is `did_del`. -/
def strdel (k : String) (s : NNState) : NNState × Bool :=
  let s1 :=
    match alookup k s.hashO with
    | some ik => { s with blobN := adel ik s.blobN, hashH := adel k s.hashH }
    | none => s
  let d1 := (alookup k s.hashO).isSome
  let s2 := if truthy (alookup k s1.hashH) then { s1 with hashH := adel k s1.hashH } else s1
  let d2 := d1 || truthy (alookup k s1.hashH)
  (s2, d2)

/-- Translation of `Netnode._strset`: delete any existing placement
(ignoring `KeyError`); for a large value allocate a fresh integer slot in
the STR_KEYS_TAG blob space, store the value there and write the forwarding
record; for a small value write the default hash slot. -/
def strset (k : String) (v : Bytes) (s : NNState) : NNState :=
  let s1 := (strdel k s).1
  if BLOB_SIZE < v.length then
    let ik := freshSlot s1.blobN
    { s1 with blobN := aset ik v s1.blobN, hashO := aset k ik s1.hashO }
  else { s1 with hashH := aset k v s1.hashH }

/-- Translation of `Netnode._strget`: consult the forwarding record first;
if it exists but the target blob is absent, raise `NetnodeCorruptError`;
otherwise fall back to the default hash slot; `KeyError` when nothing is
found. -/
def strget (k : String) (s : NNState) : Except NErr Bytes :=
  match alookup k s.hashO with
  | some ik =>
    match alookup ik s.blobN with
    | some v => .ok v
    | none => .error .corruptStore
  | none =>
    match alookup k s.hashH with
    | some v => .ok v
    | none => .error .keyNotFound

/-- Key-type dispatch of `Netnode.__getitem__` before decoding. -/
def rawget (k : NKey) (s : NNState) : Except NErr Bytes :=
  match k with
  | .i n => intget n s
  | .s st => strget st s

/-- Translation of `Netnode.__getitem__`: dispatch on the key type, then
decompress and decode the stored bytes. -/
def getitem {V : Type} (dec : Bytes → V) (decomp : Bytes → Bytes) (k : NKey)
    (s : NNState) : Except NErr V :=
  match rawget k s with
  | .ok b => .ok (dec (decomp b))
  | .error e => .error e

/-- Translation of `Netnode.__setitem__`: encode then compress the value,
then dispatch on the key type. -/
def setitem {V : Type} (enc : V → Bytes) (comp : Bytes → Bytes) (k : NKey)
    (value : V) (s : NNState) : NNState :=
  let b := comp (enc value)
  match k with
  | .i n => intset n b s
  | .s st => strset st b s

/-- Translation of `Netnode.__delitem__`: dispatch on the key type; the
`Bool` is false exactly when the source raises `KeyError`. -/
def delitem (k : NKey) (s : NNState) : NNState × Bool :=
  match k with
  | .i n => intdel n s
  | .s st => strdel st s

/-- Translation of `Netnode.get` (get-with-default): `KeyError` from
`__getitem__` is converted to the default; every other failure
propagates. -/
def nget {V : Type} (dec : Bytes → V) (decomp : Bytes → Bytes) (k : NKey)
    (d : V) (s : NNState) : Except NErr V :=
  match getitem dec decomp k s with
  | .ok v => .ok v
  | .error .keyNotFound => .ok d
  | .error e => .error e

/-- Translation of `Netnode.__contains__`: true iff `__getitem__` succeeds
with a value that is not `None` (`isNone` models Python's `is None` test on
decoded values); `KeyError` becomes false; every other failure
propagates. -/
def contains {V : Type} (isNone : V → Bool) (dec : Bytes → V)
    (decomp : Bytes → Bytes) (k : NKey) (s : NNState) : Except NErr Bool :=
  match getitem dec decomp k s with
  | .ok v => .ok (!isNone v)
  | .error .keyNotFound => .ok false
  | .error e => .error e

/-- Translation of `Netnode.iterkeys`: tour, in order, the default supval
space, the supval space of tag INT_KEYS_TAG, the default hash space, and —
as written in the source — the hash space of tag STR_KEYS_TAG (not the
forwarding space of tag STR_TO_INT_MAP_TAG). -/
def iterkeys (s : NNState) : List NKey :=
  s.sup.map (fun p => NKey.i p.1) ++ s.supM.map (fun p => NKey.i p.1)
    ++ s.hashH.map (fun p => NKey.s p.1) ++ s.hashN.map (fun p => NKey.s p.1)

/-- Translation of `Netnode.keys`: realize `iterkeys` as a list. -/
def keys (s : NNState) : List NKey :=
  iterkeys s

/-- Translation of `Netnode.kill`: discard the namespace's content and
reopen an empty namespace under the same name. -/
def kill (_s : NNState) : NNState :=
  NNState.empty

/-- The direct-slot placement of a logical key: default supval space for an
integer key, default hash space for a string key. -/
def directVal (k : NKey) (s : NNState) : Option Bytes :=
  match k with
  | .i n => alookup n s.sup
  | .s st => alookup st s.hashH

/-- The blob placement of a logical key: INT_KEYS_TAG blob for an integer
key; for a string key, the forwarding record resolved into the
STR_KEYS_TAG blob space. -/
def blobVal (k : NKey) (s : NNState) : Option Bytes :=
  match k with
  | .i n => alookup n s.supM
  | .s st => (alookup st s.hashO).bind (fun ik => alookup ik s.blobN)

/-- A logical key has a placement when its direct slot or its
blob/forwarding form is present. -/
def hasPlacement (k : NKey) (s : NNState) : Prop :=
  match k with
  | .i n => (alookup n s.supM).isSome = true ∨ (alookup n s.sup).isSome = true
  | .s st => (alookup st s.hashO).isSome = true ∨ (alookup st s.hashH).isSome = true

instance (k : NKey) (s : NNState) : Decidable (hasPlacement k s) := by
  unfold hasPlacement
  cases k <;> infer_instance

/-- Stored hash values are non-empty byte strings: every value the source
writes to the default hash space is zlib output, which is never empty, so
Python truthiness of a present value never fails. -/
def hashWF (s : NNState) : Prop :=
  ∀ p ∈ s.hashH, p.2 ≠ ([] : Bytes)

/-- A string key has no forwarding record; integer keys impose nothing. -/
def noStaleForward (k : NKey) (s : NNState) : Prop :=
  match k with
  | .i _ => True
  | .s st => alookup st s.hashO = none

/-- Concrete small test value (compressed size below `BLOB_SIZE`). -/
def smallVal : Bytes := [1, 2, 3]

/-- Concrete large test value (compressed size above `BLOB_SIZE`). -/
def largeVal : Bytes := List.replicate 1025 7

/-- Identity codec on byte strings, used to instantiate the abstract
codec parameters on concrete runs. -/
def idB : Bytes → Bytes := fun b => b

/-- State after storing a large value under the string key "k" in a fresh
namespace. -/
def sLarge : NNState :=
  setitem idB idB (NKey.s "k") largeVal NNState.empty

/-- State after deleting the string key "k" from `sLarge`. -/
def sLargeDeleted : NNState :=
  (delitem (NKey.s "k") sLarge).1

/-- State after storing a small value and then a large value under the
string key "k" in a fresh namespace. -/
def sSmallThenLarge : NNState :=
  setitem idB idB (NKey.s "k") largeVal
    (setitem idB idB (NKey.s "k") smallVal NNState.empty)

/-- State after storing a large value and then a small value under the
string key "k" in a fresh namespace. -/
def sLargeThenSmall : NNState :=
  setitem idB idB (NKey.s "k") smallVal sLarge

/-- Corrupt state for the detection claim: a forwarding record for "k"
whose target blob is absent. -/
def corruptState : NNState := ⟨[], [], [], [], [("k", 5)], []⟩

/-- State in which the integer key 0 and the string key "k" each carry both
a direct-slot placement and a blob/forwarding placement. -/
def dualState : NNState :=
  ⟨[(0, [1])], [(0, [2])], [], [("k", [3])], [("k", 5)], []⟩

/-- Concrete decoder used to instantiate abstract decoding over `Bool`
values. -/
def decB : Bytes → Bool := fun _ => false

/-- Concrete absence test used to instantiate the `is None` check over
`Bool` values. -/
def isNoneB : Bool → Bool := fun b => b

theorem alookup_aset_self {κ α : Type} [DecidableEq κ] (k : κ) (v : α)
    (m : List (κ × α)) : alookup k (aset k v m) = some v := by
  simp [aset, alookup]

theorem alookup_adel_self {κ α : Type} [DecidableEq κ] (k : κ)
    (m : List (κ × α)) : alookup k (adel k m) = none := by
  induction m with
  | nil => rfl
  | cons p ps ih =>
    by_cases h : p.1 = k
    · simpa [adel, h] using ih
    · simp [adel, alookup, h, ih]

theorem alookup_adel_ne {κ α : Type} [DecidableEq κ] {k k' : κ} (h : k' ≠ k)
    (m : List (κ × α)) : alookup k' (adel k m) = alookup k' m := by
  induction m with
  | nil => rfl
  | cons p ps ih =>
    by_cases hp : p.1 = k
    · have hpk' : p.1 ≠ k' := fun hc => h (by rw [← hc]; exact hp)
      simp only [adel, if_pos hp, ih, alookup, if_neg hpk']
    · simp only [adel, if_neg hp, alookup, ih]

theorem alookup_aset_ne {κ α : Type} [DecidableEq κ] {k k' : κ} (h : k' ≠ k)
    (v : α) (m : List (κ × α)) : alookup k' (aset k v m) = alookup k' m := by
  have hk : k ≠ k' := fun hc => h hc.symm
  simp [aset, alookup, hk, alookup_adel_ne h]

theorem alookup_mem {κ α : Type} [DecidableEq κ] {k : κ} {v : α} :
    ∀ {m : List (κ × α)}, alookup k m = some v → (k, v) ∈ m := by
  intro m
  induction m with
  | nil => intro h; simp [alookup] at h
  | cons p ps ih =>
    intro h
    by_cases hp : p.1 = k
    · rw [alookup, if_pos hp] at h
      have hv : v = p.2 := by
        injection h with h'
        exact h'.symm
      subst hv
      subst hp
      exact List.mem_cons_self _ _
    · rw [alookup, if_neg hp] at h
      exact List.mem_cons_of_mem _ (ih h)

theorem alookup_le_maxKey {m : List (Nat × Bytes)} {k : Nat} {v : Bytes}
    (h : alookup k m = some v) : k ≤ maxKey m := by
  induction m with
  | nil => simp [alookup] at h
  | cons p ps ih =>
    by_cases hp : p.1 = k
    · subst hp
      simp [maxKey]
    · rw [alookup, if_neg hp] at h
      have := ih h
      simp only [maxKey, List.foldr] at *
      omega

theorem alookup_freshSlot (m : List (Nat × Bytes)) :
    alookup (freshSlot m) m = none := by
  cases h : alookup (freshSlot m) m with
  | none => rfl
  | some v =>
    have := alookup_le_maxKey h
    simp only [freshSlot] at this
    omega

theorem intdel_fst_supM (k : Nat) (s : NNState) :
    alookup k ((intdel k s).1).supM = none := by
  simp only [intdel]
  split_ifs <;> simp_all [alookup_adel_self, Option.not_isSome_iff_eq_none]

theorem intdel_fst_sup (k : Nat) (s : NNState) :
    alookup k ((intdel k s).1).sup = none := by
  simp only [intdel]
  split_ifs <;> simp_all [alookup_adel_self, Option.not_isSome_iff_eq_none]

theorem intdel_snd_false_iff (k : Nat) (s : NNState) :
    (intdel k s).2 = false ↔ alookup k s.supM = none ∧ alookup k s.sup = none := by
  simp only [intdel]
  split_ifs <;> simp_all [Option.not_isSome_iff_eq_none, Option.isSome_iff_exists]

theorem intdel_snd_false_unchanged (k : Nat) (s : NNState)
    (h : (intdel k s).2 = false) : (intdel k s).1 = s := by
  simp only [intdel] at *
  split_ifs at * <;> simp_all

theorem strdel_fst_hashO (k : String) (s : NNState) :
    ((strdel k s).1).hashO = s.hashO := by
  simp only [strdel]
  cases h : alookup k s.hashO <;> simp only [h] <;> split_ifs <;> rfl

theorem truthy_of_hashWF {s : NNState} (hwf : hashWF s) (k : String) :
    truthy (alookup k s.hashH) = (alookup k s.hashH).isSome := by
  cases h : alookup k s.hashH with
  | none => rfl
  | some b =>
    have hb : b ≠ ([] : Bytes) := hwf (k, b) (alookup_mem h)
    cases b with
    | nil => exact absurd rfl hb
    | cons a l => simp [truthy]

theorem strdel_fst_hashH (k : String) (s : NNState) (hwf : hashWF s) :
    alookup k ((strdel k s).1).hashH = none := by
  simp only [strdel]
  cases h : alookup k s.hashO with
  | some ik => simp [h, alookup_adel_self, truthy]
  | none =>
    simp only [h]
    by_cases ht : truthy (alookup k s.hashH) = true
    · simp [ht, alookup_adel_self]
    · rw [truthy_of_hashWF hwf] at ht
      simp only [Option.not_isSome_iff_eq_none] at ht
      simp [truthy, ht]

theorem strdel_fst_blobN (k : String) (ik : Nat) (s : NNState)
    (h : alookup k s.hashO = some ik) :
    alookup ik ((strdel k s).1).blobN = none := by
  simp only [strdel, h]
  split_ifs <;> simp [alookup_adel_self]

theorem strdel_snd_false_iff (k : String) (s : NNState) (hwf : hashWF s) :
    (strdel k s).2 = false ↔ alookup k s.hashO = none ∧ alookup k s.hashH = none := by
  simp only [strdel]
  cases h : alookup k s.hashO with
  | some ik => simp [h]
  | none =>
    simp only [h, Option.isSome_none, Bool.false_or]
    rw [truthy_of_hashWF hwf]
    simp [Option.not_isSome_iff_eq_none, Option.isSome_iff_exists]

theorem strdel_snd_false_unchanged (k : String) (s : NNState)
    (h : (strdel k s).2 = false) : (strdel k s).1 = s := by
  simp only [strdel] at *
  cases hh : alookup k s.hashO with
  | some ik => simp [hh] at h
  | none =>
    simp only [hh] at h ⊢
    simp only [Option.isSome_none, Bool.false_or] at h
    simp [h]

/-- C1: for every valid key (integer or string) and every non-absent,
codec-encodable value, below or above the size threshold, set(key, value)
followed by get(key) returns a value equal to value.  The state is any
state in which the string key carries no forwarding record (in particular
any state in which the key is absent); `hcodec` states that the value
round-trips through the pluggable codecs. -/
theorem c1_set_get_roundtrip {V : Type} (enc : V → Bytes) (dec : Bytes → V)
    (comp decomp : Bytes → Bytes) (k : NKey) (v : V) (s : NNState)
    (hfresh : noStaleForward k s)
    (hcodec : dec (decomp (comp (enc v))) = v) :
    getitem dec decomp k (setitem enc comp k v s) = .ok v := by
  cases k with
  | i n =>
    simp only [setitem, getitem, rawget, intset]
    by_cases hlen : BLOB_SIZE < (comp (enc v)).length
    · simp [hlen, intget, alookup_aset_self, hcodec]
    · simp [hlen, intget, alookup_aset_self, hcodec, intdel_fst_supM]
  | s st =>
    simp only [setitem, getitem, rawget, strset]
    by_cases hlen : BLOB_SIZE < (comp (enc v)).length
    · simp [hlen, strget, alookup_aset_self, hcodec]
    · have hOs : alookup st ((strdel st s).1).hashO = none := by
        rw [strdel_fst_hashO]
        exact hfresh
      simp [hlen, strget, alookup_aset_self, hcodec, hOs]

/-- Witness for C1 at the string key "k", a small value and the identity
codecs, starting from the empty namespace. -/
theorem c1_witness :
    noStaleForward (NKey.s "k") NNState.empty ∧
    idB (idB (idB (idB smallVal))) = smallVal ∧
    getitem idB idB (NKey.s "k")
      (setitem idB idB (NKey.s "k") smallVal NNState.empty) = .ok smallVal :=
  ⟨rfl, rfl,
    c1_set_get_roundtrip idB idB idB idB (NKey.s "k") smallVal NNState.empty rfl rfl⟩

/-- C5: when a string key's forwarding record is present but its target
blob is absent, get(key) fails with CorruptStore, not KeyNotFound. -/
theorem c5_corrupt_surfaced {V : Type} (dec : Bytes → V) (decomp : Bytes → Bytes)
    (st : String) (ik : Nat) (s : NNState)
    (hf : alookup st s.hashO = some ik) (hb : alookup ik s.blobN = none) :
    getitem dec decomp (NKey.s st) s = .error .corruptStore := by
  simp [getitem, rawget, strget, hf, hb]

/-- Witness for C5 on a concrete corrupt state. -/
theorem c5_witness :
    alookup "k" corruptState.hashO = some 5 ∧
    alookup 5 corruptState.blobN = none ∧
    getitem idB idB (NKey.s "k") corruptState = .error .corruptStore :=
  ⟨rfl, rfl, c5_corrupt_surfaced idB idB "k" 5 corruptState rfl rfl⟩

/-- C9: after kill(), keys() is the empty sequence and get(key) raises
KeyNotFound for every key — in particular for every key set before the
kill, since the result holds for every prior state `s`. -/
theorem c9_kill_resets {V : Type} (dec : Bytes → V) (decomp : Bytes → Bytes)
    (k : NKey) (s : NNState) :
    keys (kill s) = [] ∧ getitem dec decomp k (kill s) = .error .keyNotFound := by
  refine ⟨rfl, ?_⟩
  cases k <;> rfl

/-- C10: whenever both placements exist for a key, get consults the
blob/forwarding placement first and returns its result (or its CorruptStore
failure), never the direct-slot value. -/
theorem c10_blob_consulted_first {V : Type} (dec : Bytes → V)
    (decomp : Bytes → Bytes) (s : NNState) :
    (∀ n bm bs, alookup n s.supM = some bm → alookup n s.sup = some bs →
      getitem dec decomp (NKey.i n) s = .ok (dec (decomp bm)))
    ∧ (∀ st ik bh, alookup st s.hashO = some ik → alookup st s.hashH = some bh →
      getitem dec decomp (NKey.s st) s =
        match alookup ik s.blobN with
        | some bb => .ok (dec (decomp bb))
        | none => .error .corruptStore) := by
  constructor
  · intro n bm bs hm hs
    simp [getitem, rawget, intget, hm]
  · intro st ik bh hO hH
    cases hb : alookup ik s.blobN <;> simp [getitem, rawget, strget, hO, hb]

/-- Witness for C10 on a state where integer key 0 and string key "k" both
carry two placements; the direct-slot values ([1] and [3]) are never
returned. -/
theorem c10_witness :
    alookup 0 dualState.supM = some [2] ∧ alookup 0 dualState.sup = some [1] ∧
    getitem idB idB (NKey.i 0) dualState = .ok [2] ∧
    alookup "k" dualState.hashO = some 5 ∧
    alookup "k" dualState.hashH = some [3] ∧
    getitem idB idB (NKey.s "k") dualState = .error .corruptStore := by
  refine ⟨rfl, rfl, ?_, rfl, rfl, ?_⟩
  · exact (c10_blob_consulted_first idB idB dualState).1 0 [2] [1] rfl rfl
  · exact (c10_blob_consulted_first idB idB dualState).2 "k" 5 [3] rfl rfl

/-- C6: get-with-default returns the default exactly when plain get fails
with KeyNotFound (read over all defaults, since a stored value may
coincide with one particular default); contains is true exactly when get
succeeds with a non-absent value and false on KeyNotFound; a CorruptStore
failure of get propagates unchanged out of both.  `hV` says the value type
has two distinct elements (Python values include at least True and
False). -/
theorem c6_default_and_contains {V : Type} (isNone : V → Bool) (dec : Bytes → V)
    (decomp : Bytes → Bytes) (k : NKey) (s : NNState)
    (hV : ∃ d1 d2 : V, d1 ≠ d2) :
    ((∀ d : V, nget dec decomp k d s = .ok d) ↔
        getitem dec decomp k s = .error .keyNotFound)
    ∧ (contains isNone dec decomp k s = .ok true ↔
        ∃ v, getitem dec decomp k s = .ok v ∧ isNone v = false)
    ∧ (getitem dec decomp k s = .error .keyNotFound →
        contains isNone dec decomp k s = .ok false)
    ∧ (getitem dec decomp k s = .error .corruptStore →
        (∀ d : V, nget dec decomp k d s = .error .corruptStore)
        ∧ contains isNone dec decomp k s = .error .corruptStore) := by
  obtain ⟨d1, d2, hd⟩ := hV
  cases hg : getitem dec decomp k s with
  | ok v =>
    refine ⟨?_, ?_, ?_, ?_⟩
    · constructor
      · intro hall
        have hd1 := hall d1
        have hd2 := hall d2
        simp only [nget, hg, Except.ok.injEq] at hd1 hd2
        exact absurd (hd1.symm.trans hd2) hd
      · intro hcontra
        simp at hcontra
    · simp only [contains, hg]
      constructor
      · intro h1
        refine ⟨v, rfl, ?_⟩
        have := congrArg (fun e => match e with | Except.ok b => b | _ => true) h1
        simp at this
        cases hn : isNone v
        · rfl
        · rw [hn] at this
          simp at this
      · rintro ⟨w, hw, hnw⟩
        have hv : v = w := by
          injection hw
        subst hv
        rw [hnw]
        rfl
    · intro hcontra
      simp at hcontra
    · intro hcontra
      simp at hcontra
  | error e =>
    cases e with
    | keyNotFound =>
      refine ⟨?_, ?_, ?_, ?_⟩
      · simp [nget, hg]
      · simp [contains, hg]
      · intro _
        simp [contains, hg]
      · intro hcontra
        simp at hcontra
    | corruptStore =>
      refine ⟨?_, ?_, ?_, ?_⟩
      · constructor
        · intro hall
          have := hall d1
          simp [nget, hg] at this
        · intro hcontra
          cases hcontra
      · simp [contains, hg]
      · intro hcontra
        cases hcontra
      · intro _
        constructor
        · intro d
          simp [nget, hg]
        · simp [contains, hg]

/-- Witness for C6 at the integer key 0 on the empty namespace over `Bool`
values. -/
theorem c6_witness :
    (∃ d1 d2 : Bool, d1 ≠ d2) ∧
    (((∀ d : Bool, nget decB idB (NKey.i 0) d NNState.empty = .ok d) ↔
        getitem decB idB (NKey.i 0) NNState.empty = .error .keyNotFound)
      ∧ (contains isNoneB decB idB (NKey.i 0) NNState.empty = .ok true ↔
          ∃ v, getitem decB idB (NKey.i 0) NNState.empty = .ok v ∧
            isNoneB v = false)
      ∧ (getitem decB idB (NKey.i 0) NNState.empty = .error .keyNotFound →
          contains isNoneB decB idB (NKey.i 0) NNState.empty = .ok false)
      ∧ (getitem decB idB (NKey.i 0) NNState.empty = .error .corruptStore →
          (∀ d : Bool, nget decB idB (NKey.i 0) d NNState.empty =
            .error .corruptStore)
          ∧ contains isNoneB decB idB (NKey.i 0) NNState.empty =
            .error .corruptStore)) :=
  ⟨⟨true, false, by decide⟩,
    c6_default_and_contains isNoneB decB idB (NKey.i 0) NNState.empty
      ⟨true, false, by decide⟩⟩

/-- C7: set stores the value in the direct slot exactly when the
compressed payload's size is at most BLOB_SIZE = 1024 bytes, and in the
corresponding blob placement exactly when it exceeds it, for both key
types; the branch depends only on the compressed size. -/
theorem c7_threshold_placement {V : Type} (enc : V → Bytes)
    (comp : Bytes → Bytes) (k : NKey) (v : V) (s : NNState) (hwf : hashWF s) :
    ((comp (enc v)).length ≤ BLOB_SIZE →
      directVal k (setitem enc comp k v s) = some (comp (enc v)) ∧
      blobVal k (setitem enc comp k v s) = none)
    ∧ (BLOB_SIZE < (comp (enc v)).length →
      blobVal k (setitem enc comp k v s) = some (comp (enc v)) ∧
      directVal k (setitem enc comp k v s) = none) := by
  cases k with
  | i n =>
    constructor
    · intro hle
      have hlen : ¬ BLOB_SIZE < (comp (enc v)).length := by omega
      simp [setitem, intset, hlen, directVal, blobVal, alookup_aset_self,
        intdel_fst_supM]
    · intro hlt
      simp [setitem, intset, hlt, directVal, blobVal, alookup_aset_self,
        intdel_fst_sup]
  | s st =>
    constructor
    · intro hle
      have hlen : ¬ BLOB_SIZE < (comp (enc v)).length := by omega
      cases hO : alookup st s.hashO with
      | none =>
        simp [setitem, strset, hlen, directVal, blobVal, alookup_aset_self,
          strdel_fst_hashO, hO]
      | some ik =>
        have hback := strdel_fst_blobN st ik s hO
        simp [setitem, strset, hlen, directVal, blobVal, alookup_aset_self,
          strdel_fst_hashO, hO, hback]
    · intro hlt
      have hH := strdel_fst_hashH st s hwf
      simp [setitem, strset, hlt, directVal, blobVal, alookup_aset_self, hH]

/-- Witness for C7 at the integer key 0 with a small value on the empty
namespace. -/
theorem c7_witness :
    hashWF NNState.empty ∧
    (((idB (idB smallVal)).length ≤ BLOB_SIZE →
        directVal (NKey.i 0) (setitem idB idB (NKey.i 0) smallVal NNState.empty) =
          some (idB (idB smallVal)) ∧
        blobVal (NKey.i 0) (setitem idB idB (NKey.i 0) smallVal NNState.empty) =
          none)
      ∧ (BLOB_SIZE < (idB (idB smallVal)).length →
        blobVal (NKey.i 0) (setitem idB idB (NKey.i 0) smallVal NNState.empty) =
          some (idB (idB smallVal)) ∧
        directVal (NKey.i 0) (setitem idB idB (NKey.i 0) smallVal NNState.empty) =
          none)) :=
  ⟨(by intro p hp; cases hp),
    c7_threshold_placement idB idB (NKey.i 0) smallVal NNState.empty
      (by intro p hp; cases hp)⟩

/-- C8: delete(key) fails with KeyNotFound exactly when no placement for
the key existed, in which case the store is unchanged; it succeeds whenever
at least one placement (direct or blob/forwarding) existed. -/
theorem c8_delete_not_found_iff (k : NKey) (s : NNState) (hwf : hashWF s) :
    ((delitem k s).2 = false ↔ ¬ hasPlacement k s)
    ∧ ((delitem k s).2 = false → (delitem k s).1 = s) := by
  cases k with
  | i n =>
    constructor
    · rw [delitem, intdel_snd_false_iff]
      simp [hasPlacement, not_or, Option.not_isSome_iff_eq_none]
    · intro h
      exact intdel_snd_false_unchanged n s h
  | s st =>
    constructor
    · rw [delitem, strdel_snd_false_iff st s hwf]
      simp [hasPlacement, not_or, Option.not_isSome_iff_eq_none]
    · intro h
      exact strdel_snd_false_unchanged st s h

/-- Witness for C8 at the string key "k" on the corrupt state, whose
forwarding record is the sole placement: delete succeeds there. -/
theorem c8_witness :
    hashWF corruptState ∧
    (((delitem (NKey.s "k") corruptState).2 = false ↔
        ¬ hasPlacement (NKey.s "k") corruptState)
      ∧ ((delitem (NKey.s "k") corruptState).2 = false →
        (delitem (NKey.s "k") corruptState).1 = corruptState)) :=
  ⟨(by intro p hp; cases hp),
    c8_delete_not_found_iff (NKey.s "k") corruptState (by intro p hp; cases hp)⟩

set_option maxRecDepth 40000 in
/-- C2 (failing): with the string key "k", writing a small value then a
large one leaves keys() empty although get succeeds (the enumeration never
visits the forwarding space), and writing a large value then a small one
makes get fail with CorruptStore because the stale forwarding record
survives the untagged hashdel in the delete-before-write. -/
theorem c2_overwrite_bug :
    getitem idB idB (NKey.s "k") sSmallThenLarge = .ok largeVal
    ∧ keys sSmallThenLarge = []
    ∧ getitem idB idB (NKey.s "k") sLargeThenSmall = .error .corruptStore := by
  refine ⟨rfl, rfl, rfl⟩

set_option maxRecDepth 40000 in
/-- C3 (failing): after set("k", large value) and a successful delete("k"),
get fails with CorruptStore instead of KeyNotFound, and contains propagates
the corruption instead of returning false: the forwarding record was not
removed. -/
theorem c3_delete_bug :
    (delitem (NKey.s "k") sLarge).2 = true
    ∧ getitem idB idB (NKey.s "k") sLargeDeleted = .error .corruptStore
    ∧ contains (fun _ => false) idB idB (NKey.s "k") sLargeDeleted =
        .error .corruptStore := by
  refine ⟨rfl, rfl, rfl⟩

set_option maxRecDepth 40000 in
/-- C4 (failing): after set("k", large value) the key is live (get
succeeds), yet keys() is the empty list — iterkeys tours the hash space of
tag STR_KEYS_TAG, which is never written, instead of the forwarding space
of tag STR_TO_INT_MAP_TAG. -/
theorem c4_enumeration_bug :
    getitem idB idB (NKey.s "k") sLarge = .ok largeVal
    ∧ keys sLarge = [] := by
  refine ⟨rfl, rfl⟩
